import Mathlib

/-!
Verification of the incremental i18n string-extraction pipeline
(`scripts/extract-strings-incremental.py`, with the shared merge loop of
`scripts/extract-strings-fast.py`).

The development shallowly embeds the pipeline:

* `md5hex` is a full executable model of `hashlib.md5(...).hexdigest()`
  (RFC 1321), validated against the standard test vectors.
* `calculate_file_hash`, `load_cache`, `save_cache_ops`,
  `extract_from_file`, `files_to_process`, `scan_directory_incremental`
  mirror the functions of the same names in the source.  File contents are
  byte lists; an unreadable file is `none`.  The pluggable rule set
  (the inner `extract_*` regex helpers, which the spec treats as an
  external collaborator) is a parameter `classify`.
* The persisted cache file is modelled by `DiskCache`: `absent` (no file),
  `corrupt` (contents `json.load` cannot parse), or `stored c` (contents
  parsing back to the map `c`); `json.dump`/`json.load` of a string map
  round-trips, which `stored` captures.
* `save_cache` is additionally modelled at the file-system level
  (`save_cache_ops`, `crashState`) to settle the atomicity claim.
-/

namespace I18n

/-! ## MD5 (model of `hashlib.md5`) -/

/-- Truncate to a 32-bit word, as every MD5 step does. -/
def w32 (n : Nat) : Nat := n % 4294967296

/-- Rotate a 32-bit word left by `s` bits. -/
def rotl (x s : Nat) : Nat := ((x <<< s) % 4294967296) + (x >>> (32 - s))

/-- Little-endian byte expansion of `n` into `count` bytes. -/
def leBytes (n count : Nat) : List Nat := (List.range count).map (fun i => n / 2 ^ (8 * i) % 256)

/-- MD5 padding: append `0x80`, zero bytes to 56 mod 64, then the 64-bit
little-endian bit length. -/
def padMessage (m : List Nat) : List Nat :=
  let L := m.length
  let zeros := (120 - ((L + 1) % 64)) % 64
  m ++ [128] ++ List.replicate zeros 0 ++ leBytes (8 * L) 8

/-- Split a byte list into 64-byte blocks (fuelled structural recursion so
that the kernel can evaluate it). -/
def chunk64Aux : Nat → List Nat → List (List Nat)
  | 0, _ => []
  | _, [] => []
  | fuel + 1, a :: l => (a :: l).take 64 :: chunk64Aux fuel ((a :: l).drop 64)

/-- Split a byte list into 64-byte blocks. -/
def chunk64 (l : List Nat) : List (List Nat) := chunk64Aux l.length l

/-- The 64 MD5 round constants (integer parts of `abs(sin(i+1)) * 2^32`). -/
def md5K : List Nat :=
  [0xd76aa478, 0xe8c7b756, 0x242070db, 0xc1bdceee,
   0xf57c0faf, 0x4787c62a, 0xa8304613, 0xfd469501,
   0x698098d8, 0x8b44f7af, 0xffff5bb1, 0x895cd7be,
   0x6b901122, 0xfd987193, 0xa679438e, 0x49b40821,
   0xf61e2562, 0xc040b340, 0x265e5a51, 0xe9b6c7aa,
   0xd62f105d, 0x02441453, 0xd8a1e681, 0xe7d3fbc8,
   0x21e1cde6, 0xc33707d6, 0xf4d50d87, 0x455a14ed,
   0xa9e3e905, 0xfcefa3f8, 0x676f02d9, 0x8d2a4c8a,
   0xfffa3942, 0x8771f681, 0x6d9d6122, 0xfde5380c,
   0xa4beea44, 0x4bdecfa9, 0xf6bb4b60, 0xbebfbc70,
   0x289b7ec6, 0xeaa127fa, 0xd4ef3085, 0x04881d05,
   0xd9d4d039, 0xe6db99e5, 0x1fa27cf8, 0xc4ac5665,
   0xf4292244, 0x432aff97, 0xab9423a7, 0xfc93a039,
   0x655b59c3, 0x8f0ccc92, 0xffeff47d, 0x85845dd1,
   0x6fa87e4f, 0xfe2ce6e0, 0xa3014314, 0x4e0811a1,
   0xf7537e82, 0xbd3af235, 0x2ad7d2bb, 0xeb86d391]

/-- The 64 MD5 per-round left-rotation amounts. -/
def md5S : List Nat :=
  [7, 12, 17, 22, 7, 12, 17, 22, 7, 12, 17, 22, 7, 12, 17, 22,
   5, 9, 14, 20, 5, 9, 14, 20, 5, 9, 14, 20, 5, 9, 14, 20,
   4, 11, 16, 23, 4, 11, 16, 23, 4, 11, 16, 23, 4, 11, 16, 23,
   6, 10, 15, 21, 6, 10, 15, 21, 6, 10, 15, 21, 6, 10, 15, 21]

/-- Little-endian 32-bit word `g` of a 64-byte block. -/
def wordAt (block : List Nat) (g : Nat) : Nat :=
  block.getD (4 * g) 0 + 256 * block.getD (4 * g + 1) 0 +
    65536 * block.getD (4 * g + 2) 0 + 16777216 * block.getD (4 * g + 3) 0

/-- One of the 64 MD5 rounds on state `(a, b, c, d)`. -/
def md5Step (block : List Nat) (st : Nat × Nat × Nat × Nat) (i : Nat) : Nat × Nat × Nat × Nat :=
  let a := st.1
  let b := st.2.1
  let c := st.2.2.1
  let d := st.2.2.2
  let f :=
    if i < 16 then (b &&& c) ||| ((b ^^^ 4294967295) &&& d)
    else if i < 32 then (d &&& b) ||| ((d ^^^ 4294967295) &&& c)
    else if i < 48 then b ^^^ c ^^^ d
    else c ^^^ (b ||| (d ^^^ 4294967295))
  let g :=
    if i < 16 then i
    else if i < 32 then (5 * i + 1) % 16
    else if i < 48 then (3 * i + 5) % 16
    else (7 * i) % 16
  let tmp := w32 (a + f + md5K.getD i 0 + wordAt block g)
  let nb := w32 (b + rotl tmp (md5S.getD i 0))
  (d, nb, b, c)

/-- Absorb one 64-byte block into the MD5 state. -/
def processBlock (st : Nat × Nat × Nat × Nat) (block : List Nat) : Nat × Nat × Nat × Nat :=
  let r := (List.range 64).foldl (md5Step block) st
  (w32 (st.1 + r.1), w32 (st.2.1 + r.2.1), w32 (st.2.2.1 + r.2.2.1), w32 (st.2.2.2 + r.2.2.2))

/-- The 16-byte MD5 digest of a byte list. -/
def md5Digest (m : List Nat) : List Nat :=
  let st := (chunk64 (padMessage m)).foldl processBlock
    (0x67452301, 0xefcdab89, 0x98badcfe, 0x10325476)
  leBytes st.1 4 ++ leBytes st.2.1 4 ++ leBytes st.2.2.1 4 ++ leBytes st.2.2.2 4

/-- Lower-case hexadecimal digit. -/
def hexDigit (n : Nat) : Char := if n < 10 then Char.ofNat (48 + n) else Char.ofNat (87 + n)

/-- Two hex characters per byte, high nibble first. -/
def hexChars (l : List Nat) : List Char :=
  l.foldr (fun b acc => hexDigit (b / 16 % 16) :: hexDigit (b % 16) :: acc) []

/-- Model of `hashlib.md5(data).hexdigest()`: the 32-character lower-case
hex string of the MD5 digest. -/
def md5hex (m : List Nat) : String := String.mk (hexChars (md5Digest m))

/-! ## Data model of the pipeline -/

/-- Byte content of a document. -/
abbrev Content := List Nat

/-- A document discovered by the scan: its identity (path string), its
extension-derived type (`filepath.suffix.lstrip(".")`), and its content,
`none` when every attempt to open the file raises. -/
structure FileInfo where
  path : String
  ftype : String
  content : Option Content
deriving DecidableEq

/-- Per-document extraction results: the mapping from category to set of
fragments returned by `extract_from_file` on success (a Python dict with
unique keys, in insertion order). -/
abbrev DocResults := List (String × Finset String)

/-- The pluggable rule set: `classify content file_type` stands for the body
of `extract_from_file` after a successful read (lines 167-181), i.e. the
`extract_*` regex helpers assembling a category-to-set mapping.  The spec
treats it as an external collaborator. -/
abbrev Classify := Content → String → DocResults

/-- Model of `calculate_file_hash` (lines 46-54): the MD5 hexdigest of the
file bytes, or the empty string when reading raises. -/
def calculate_file_hash (f : FileInfo) : String :=
  match f.content with
  | some c => md5hex c
  | none => ""

/-- Model of `extract_from_file` (lines 159-181): `none` when reading the
file raises (the source returns a dict with the reserved key `error`),
otherwise the rule-set results. -/
def extract_from_file (classify : Classify) (f : FileInfo) : Option DocResults :=
  match f.content with
  | none => none
  | some c => some (classify c f.ftype)

/-- One persisted cache entry: `{hash, timestamp, results}` (lines 265-269).
The source stores each fragment set as `list(v)` and reads it back with
`set(strings)`; since `list` of a `set` is duplicate-free, the entry is
modelled with the set itself. -/
structure CacheEntry where
  hash : String
  timestamp : String
  results : DocResults
deriving DecidableEq

/-- The in-memory cache: a Python dict from file path to entry, modelled as
an association list with unique keys, assignment keeping the position of a
replaced key. -/
abbrev Cache := List (String × CacheEntry)

/-- Dict lookup `cache[file_str]`. -/
def cacheLookup (c : Cache) (p : String) : Option CacheEntry :=
  (c.find? (fun x => x.1 == p)).map (fun x => x.2)

/-- Dict assignment `cache[file_str] = entry`: replace the entry of an
existing key in place, or append a new key at the end. -/
def cacheUpsert : Cache → String → CacheEntry → Cache
  | [], p, e => [(p, e)]
  | x :: t, p, e => if x.1 == p then (p, e) :: t else x :: cacheUpsert t p e

/-- State of the persisted cache file: missing, unparsable, or parsing back
to a stored map (`json.dump` followed by `json.load` round-trips a map of
strings and lists). -/
inductive DiskCache where
  | absent
  | corrupt
  | stored (c : Cache)
deriving DecidableEq

/-- Model of `load_cache` (lines 57-66): missing file or a `json.load`
failure both yield the empty dict; the function never propagates the parse
exception. -/
def load_cache : DiskCache → Cache
  | DiskCache.absent => []
  | DiskCache.corrupt => []
  | DiskCache.stored c => c

/-! ## Aggregation (the merge loops of both scan scripts) -/

/-- The Aggregate Result: the `all_strings` defaultdict (category to
deduplicated fragment set) and the `file_counts` defaultdict (category to
raw occurrence count).  Dict equality in Python ignores insertion order, so
both are total functions defaulting to the empty set and zero. -/
structure Aggregate where
  strings : String → Finset String
  counts : String → Nat

/-- The empty `defaultdict(set)` / `defaultdict(int)` pair. -/
def emptyAgg : Aggregate := { strings := fun _ => ∅, counts := fun _ => 0 }

/-- One iteration of the merge loop body:
`all_strings[category].update(strings); file_counts[category] += len(strings)`. -/
def aggStep (a : Aggregate) (p : String × Finset String) : Aggregate :=
  { strings := fun c => if c = p.1 then a.strings c ∪ p.2 else a.strings c,
    counts := fun c => if c = p.1 then a.counts c + p.2.card else a.counts c }

/-- Merging one per-document result into the aggregate: the loop
`for category, strings in results.items(): ...` shared by
`scan_directory_parallel` (lines 201-203) and
`scan_directory_incremental` (lines 230-232 and 271-273). -/
def aggAdd (a : Aggregate) (r : DocResults) : Aggregate := r.foldl aggStep a

/-- Merging a whole list of per-document results, in arrival order. -/
def aggregateList (l : List DocResults) : Aggregate := l.foldl aggAdd emptyAgg

/-! ## The incremental scan -/

/-- Cache-hit test of the classification loop (line 227):
`file_str in cache and cache[file_str].get("hash") == current_hash`. -/
def isHit (cache : Cache) (f : FileInfo) : Bool :=
  match cacheLookup cache f.path with
  | some e => e.hash == calculate_file_hash f
  | none => false

/-- The `files_to_process` list (lines 216-236): everything under a forced
rescan, otherwise the files whose fingerprint misses the cache. -/
def files_to_process (cache : Cache) (files : List FileInfo) (force : Bool) : List FileInfo :=
  if force then files else files.filter (fun f => !(isHit cache f))

/-- Cached per-document results, `cache[file_str].get("results", {})`. -/
def cachedResults (cache : Cache) (f : FileInfo) : DocResults :=
  match cacheLookup cache f.path with
  | some e => e.results
  | none => []

/-- The cache-hit half of the classification loop (lines 223-233): fold the
cached results of every hit into the aggregate, in discovery order. -/
def classifyAgg (cache : Cache) (files : List FileInfo) : Aggregate :=
  files.foldl (fun a f => if isHit cache f then aggAdd a (cachedResults cache f) else a) emptyAgg

/-- The processing loop (lines 253-273): for each changed/new file, extract;
on success store `{hash, timestamp, results}` in the cache and merge into the
aggregate; on failure (`error` key) do nothing. -/
def processFiles (classify : Classify) (ts : String) (st : Cache × Aggregate)
    (toProc : List FileInfo) : Cache × Aggregate :=
  toProc.foldl (fun st f =>
    match extract_from_file classify f with
    | none => st
    | some r =>
        (cacheUpsert st.1 f.path { hash := calculate_file_hash f, timestamp := ts, results := r },
         aggAdd st.2 r)) st

/-- The cache component of the processing loop in isolation. -/
def processCache (classify : Classify) (ts : String) (toProc : List FileInfo) (c : Cache) : Cache :=
  toProc.foldl (fun c f =>
    match extract_from_file classify f with
    | none => c
    | some r =>
        cacheUpsert c f.path { hash := calculate_file_hash f, timestamp := ts, results := r }) c

/-- Everything `scan_directory_incremental` computes from the loaded cache:
the aggregate, the printed `cached_files` and `new_files` statistics, and
the cache map passed to `save_cache` when (and only when) `new_files > 0`. -/
structure CoreResult where
  agg : Aggregate
  cachedFiles : Nat
  newFiles : Nat
  savedCache : Option Cache

/-- Body of `scan_directory_incremental` (lines 184-279) after `load_cache`:
early return on an empty discovery, hit/miss split (skipped wholesale under
`--force`), processing of the misses, and a cache save only when at least
one file was processed. -/
def scanCore (classify : Classify) (ts : String) (files : List FileInfo)
    (cache : Cache) (force : Bool) : CoreResult :=
  if files.isEmpty then
    { agg := emptyAgg, cachedFiles := 0, newFiles := 0, savedCache := none }
  else
    let toProc := files_to_process cache files force
    let cachedFiles := if force then 0 else (files.filter (fun f => isHit cache f)).length
    let agg0 := if force then emptyAgg else classifyAgg cache files
    if toProc.isEmpty then
      { agg := agg0, cachedFiles := cachedFiles, newFiles := 0, savedCache := none }
    else
      let st := processFiles classify ts (cache, agg0) toProc
      { agg := st.2, cachedFiles := cachedFiles, newFiles := toProc.length,
        savedCache := some st.1 }

/-- Observable outcome of one `scan_directory_incremental` run: the returned
`(dict(all_strings), dict(file_counts))` pair, the printed statistics, and
the state of the persisted cache file afterwards. -/
structure ScanResult where
  strings : String → Finset String
  counts : String → Nat
  cachedFiles : Nat
  newFiles : Nat
  didSave : Bool
  diskAfter : DiskCache

/-- Model of `scan_directory_incremental`: load the cache from disk, run the
scan body, and persist via `save_cache` exactly when files were processed.
`ts` is the run's `datetime.now().isoformat()` stamp. -/
def scan_directory_incremental (classify : Classify) (ts : String) (files : List FileInfo)
    (disk : DiskCache) (force : Bool) : ScanResult :=
  let cache := load_cache disk
  let r := scanCore classify ts files cache force
  { strings := r.agg.strings, counts := r.agg.counts, cachedFiles := r.cachedFiles,
    newFiles := r.newFiles, didSave := r.savedCache.isSome,
    diskAfter := match r.savedCache with
      | some c => DiskCache.stored c
      | none => disk }

/-! ## Discovery exclusion (line 208 of the incremental script, line 175 of
the fast script) -/

/-- Exclusion test
`any(exclude_dir in filepath.parts for exclude_dir in exclude_dirs)`:
`filepath.parts` is the tuple of whole path segments, and `in` on a tuple is
element equality. -/
def pathExcluded (parts : List String) (excludeDirs : List String) : Bool :=
  excludeDirs.any (fun d => parts.contains d)

/-! ## File-system model of `save_cache` (lines 69-74) -/

/-- Cache file name (line 43). -/
def CACHE_FILE : String := "extraction_cache.json"

/-- Path of the persisted cache, `Path(cache_dir) / CACHE_FILE`. -/
def cacheFilePath (cacheDir : String) : String := cacheDir ++ "/" ++ CACHE_FILE

/-- File-system operations relevant to saving. -/
inductive FsOp where
  | makedirs (dir : String)
  | writeFile (path : String) (data : String)
  | rename (src dst : String)
deriving DecidableEq

/-- Whether an operation is a rename/move. -/
def FsOp.isRename : FsOp → Bool
  | FsOp.rename _ _ => true
  | _ => false

/-- The exact operation trace of `save_cache`: `os.makedirs(cache_dir)` then
`open(cache_path, "w")` + `json.dump` — a single direct truncating write of
the serialization `ser cache` to the final path, with no temporary file and
no rename.  `ser` abstracts `json.dumps(cache, indent=2)`. -/
def save_cache_ops (ser : Cache → String) (cache : Cache) (cacheDir : String) : List FsOp :=
  [FsOp.makedirs cacheDir, FsOp.writeFile (cacheFilePath cacheDir) (ser cache)]

/-- Contents of every path on disk. -/
abbrev Disk := String → Option String

/-- Effect of one completed file-system operation. -/
def applyOp (disk : Disk) : FsOp → Disk
  | FsOp.makedirs _ => disk
  | FsOp.writeFile p d => fun q => if q = p then some d else disk q
  | FsOp.rename src dst => fun q =>
      if q = dst then disk src else if q = src then none else disk q

/-- Effect of a completed operation sequence. -/
def runOps (disk : Disk) (ops : List FsOp) : Disk := ops.foldl applyOp disk

/-- Disk state when the process crashes after `k` completed operations, the
next operation — if it is a direct write — having flushed only its first `j`
bytes.  A direct truncating write is the only operation that exposes a
partial state; a rename is atomic. -/
def crashState (disk : Disk) (ops : List FsOp) (k j : Nat) : Disk :=
  let d := runOps disk (ops.take k)
  match ops.get? k with
  | some (FsOp.writeFile p data) => fun q => if q = p then some (data.take j) else d q
  | _ => d

/-! ## Helper lemmas: the MD5 hexdigest is always 32 characters -/

theorem leBytes_length (n count : Nat) : (leBytes n count).length = count := by
  simp [leBytes]

theorem hexChars_length (l : List Nat) : (hexChars l).length = 2 * l.length := by
  induction l with
  | nil => rfl
  | cons b t ih =>
      show (hexDigit (b / 16 % 16) :: hexDigit (b % 16) :: hexChars t).length = 2 * (b :: t).length
      simp only [List.length_cons, ih]
      ring

theorem md5Digest_length (m : List Nat) : (md5Digest m).length = 16 := by
  simp [md5Digest, leBytes_length]

theorem md5hex_length (m : List Nat) : (md5hex m).length = 32 := by
  show (hexChars (md5Digest m)).length = 32
  rw [hexChars_length, md5Digest_length]

theorem md5hex_ne_empty (m : List Nat) : md5hex m ≠ "" := by
  intro h
  have := md5hex_length m
  rw [h] at this
  simp at this

/-! ## Helper lemmas: merge is commutative -/

theorem aggStep_comm (a : Aggregate) (p q : String × Finset String) :
    aggStep (aggStep a p) q = aggStep (aggStep a q) p := by
  unfold aggStep
  simp only [Aggregate.mk.injEq]
  constructor
  · funext c
    dsimp only
    split_ifs <;> first | rfl | exact Finset.union_right_comm _ _ _
  · funext c
    dsimp only
    split_ifs <;> omega

theorem foldl_aggStep_out (r : DocResults) (a : Aggregate) (p : String × Finset String) :
    List.foldl aggStep (aggStep a p) r = aggStep (List.foldl aggStep a r) p := by
  induction r generalizing a with
  | nil => rfl
  | cons x t ih =>
      simp only [List.foldl_cons]
      rw [← aggStep_comm, ih]

theorem aggAdd_comm (a : Aggregate) (r s : DocResults) :
    aggAdd (aggAdd a r) s = aggAdd (aggAdd a s) r := by
  unfold aggAdd
  induction r generalizing a with
  | nil => rfl
  | cons p t ih =>
      simp only [List.foldl_cons]
      rw [ih (aggStep a p), foldl_aggStep_out s a p]

theorem aggFold_perm {l l' : List DocResults} (h : List.Perm l l') :
    ∀ a : Aggregate, l.foldl aggAdd a = l'.foldl aggAdd a := by
  induction h with
  | nil => intro a; rfl
  | cons x _ ih => intro a; simp only [List.foldl_cons]; exact ih _
  | swap x y t => intro a; simp only [List.foldl_cons]; rw [aggAdd_comm]
  | trans _ _ ih₁ ih₂ => intro a; rw [ih₁, ih₂]

theorem aggregateList_perm {l l' : List DocResults} (h : List.Perm l l') :
    aggregateList l = aggregateList l' :=
  aggFold_perm h emptyAgg

/-! ## Helper lemmas: cache lookup and update -/

theorem cacheLookup_nil (p : String) : cacheLookup [] p = none := rfl

theorem cacheLookup_cons (x : String × CacheEntry) (t : Cache) (p : String) :
    cacheLookup (x :: t) p = if x.1 == p then some x.2 else cacheLookup t p := by
  unfold cacheLookup
  by_cases hx : x.1 == p <;> simp [List.find?, hx]

theorem cacheLookup_upsert_self (c : Cache) (p : String) (e : CacheEntry) :
    cacheLookup (cacheUpsert c p e) p = some e := by
  induction c with
  | nil => simp [cacheUpsert, cacheLookup_cons]
  | cons x t ih =>
      unfold cacheUpsert
      by_cases hx : (x.1 == p) = true
      · rw [if_pos hx, cacheLookup_cons]
        simp
      · rw [if_neg hx, cacheLookup_cons, if_neg hx]
        exact ih

theorem cacheLookup_upsert_ne (c : Cache) (p q : String) (e : CacheEntry) (h : q ≠ p) :
    cacheLookup (cacheUpsert c p e) q = cacheLookup c q := by
  have hpq : ¬((p : String) == q) = true := by simpa using fun hh => h hh.symm
  induction c with
  | nil => simp [cacheUpsert, cacheLookup_cons, hpq, cacheLookup_nil]
  | cons x t ih =>
      unfold cacheUpsert
      by_cases hx : (x.1 == p) = true
      · have hxp : x.1 = p := by simpa using hx
        rw [if_pos hx, cacheLookup_cons, cacheLookup_cons]
        simp only [hxp, hpq, Bool.false_eq_true, if_false]
      · rw [if_neg hx, cacheLookup_cons, cacheLookup_cons, ih]

theorem mem_cacheUpsert (c : Cache) (p : String) (e : CacheEntry) (x : String × CacheEntry)
    (hx : x ∈ cacheUpsert c p e) : x = (p, e) ∨ x ∈ c := by
  induction c with
  | nil =>
      simp only [cacheUpsert, List.mem_singleton] at hx
      left; exact hx
  | cons y t ih =>
      unfold cacheUpsert at hx
      by_cases hy : (y.1 == p) = true
      · rw [if_pos hy] at hx
        rcases List.mem_cons.mp hx with hx | hx
        · left; exact hx
        · right; exact List.mem_cons_of_mem y hx
      · rw [if_neg hy] at hx
        rcases List.mem_cons.mp hx with hx | hx
        · right; rw [hx]; exact List.mem_cons_self y t
        · rcases ih hx with hh | hh
          · left; exact hh
          · right; exact List.mem_cons_of_mem y hh

/-! ## Helper lemmas: the processing loop -/

theorem processFiles_fst (classify : Classify) (ts : String) (c : Cache) (a : Aggregate)
    (l : List FileInfo) : (processFiles classify ts (c, a) l).1 = processCache classify ts l c := by
  unfold processFiles processCache
  induction l generalizing c a with
  | nil => rfl
  | cons f t ih =>
      simp only [List.foldl_cons]
      cases extract_from_file classify f with
      | none => exact ih c a
      | some r => exact ih _ _

theorem processFiles_snd (classify : Classify) (ts : String) (c : Cache) (a : Aggregate)
    (l : List FileInfo) :
    (processFiles classify ts (c, a) l).2 =
      (l.filterMap (extract_from_file classify)).foldl aggAdd a := by
  unfold processFiles
  induction l generalizing c a with
  | nil => rfl
  | cons f t ih =>
      simp only [List.foldl_cons, List.filterMap_cons]
      cases extract_from_file classify f with
      | none => exact ih c a
      | some r => simp only [List.foldl_cons]; exact ih _ _

theorem processCache_nil (classify : Classify) (ts : String) (c : Cache) :
    processCache classify ts [] c = c := rfl

theorem processCache_cons_none (classify : Classify) (ts : String) (f : FileInfo)
    (t : List FileInfo) (c : Cache) (hef : extract_from_file classify f = none) :
    processCache classify ts (f :: t) c = processCache classify ts t c := by
  unfold processCache
  simp only [List.foldl_cons, hef]

theorem processCache_cons_some (classify : Classify) (ts : String) (f : FileInfo)
    (t : List FileInfo) (c : Cache) (r : DocResults)
    (hef : extract_from_file classify f = some r) :
    processCache classify ts (f :: t) c =
      processCache classify ts t
        (cacheUpsert c f.path { hash := calculate_file_hash f, timestamp := ts, results := r }) := by
  unfold processCache
  simp only [List.foldl_cons, hef]

theorem cacheLookup_processCache_skip (classify : Classify) (ts : String) (p : String)
    (l : List FileInfo) (c : Cache)
    (h : ∀ g ∈ l, g.path = p → extract_from_file classify g = none) :
    cacheLookup (processCache classify ts l c) p = cacheLookup c p := by
  induction l generalizing c with
  | nil => rfl
  | cons f t ih =>
      cases hef : extract_from_file classify f with
      | none =>
          rw [processCache_cons_none classify ts f t c hef]
          exact ih c (fun g hg => h g (List.mem_cons_of_mem f hg))
      | some r =>
          have hfp : f.path ≠ p := by
            intro hfp
            have := h f (List.mem_cons_self f t) hfp
            rw [hef] at this
            exact Option.noConfusion this
          rw [processCache_cons_some classify ts f t c r hef]
          rw [ih _ (fun g hg => h g (List.mem_cons_of_mem f hg))]
          exact cacheLookup_upsert_ne c f.path p _ (fun hh => hfp hh.symm)

theorem cacheLookup_processCache_hit (classify : Classify) (ts : String)
    (l : List FileInfo) (c : Cache) (f : FileInfo) (r : DocResults)
    (hnd : (l.map (fun g => g.path)).Nodup) (hf : f ∈ l)
    (hex : extract_from_file classify f = some r) :
    cacheLookup (processCache classify ts l c) f.path =
      some { hash := calculate_file_hash f, timestamp := ts, results := r } := by
  induction l generalizing c with
  | nil => exact absurd hf (List.not_mem_nil f)
  | cons g t ih =>
      simp only [List.map_cons, List.nodup_cons] at hnd
      rcases List.mem_cons.mp hf with hfg | hft
      · subst hfg
        rw [processCache_cons_some classify ts f t c r hex]
        have hskip : ∀ x ∈ t, x.path = f.path → extract_from_file classify x = none := by
          intro x hx hxf
          exact absurd hxf
            (fun hxf => hnd.1 (by rw [← hxf]; exact List.mem_map_of_mem (fun g => g.path) hx))
        rw [cacheLookup_processCache_skip classify ts f.path t _ hskip]
        exact cacheLookup_upsert_self _ _ _
      · cases hef : extract_from_file classify g with
        | none =>
            rw [processCache_cons_none classify ts g t c hef]
            exact ih c hnd.2 hft
        | some rg =>
            rw [processCache_cons_some classify ts g t c rg hef]
            exact ih _ hnd.2 hft

/-! ## Helper lemmas: what one run serves for each discovered document -/

/-- The per-document result a run contributes to the aggregate: cached
results on a fingerprint hit, fresh extraction on a miss, nothing for an
unreadable miss. -/
def servedOpt (classify : Classify) (cache : Cache) (f : FileInfo) : Option DocResults :=
  if isHit cache f then some (cachedResults cache f) else extract_from_file classify f

/-- The per-document results of one non-forced run in processing order:
cache hits first (discovery order), then the successfully processed
misses (discovery order). -/
def servedList (classify : Classify) (cache : Cache) (files : List FileInfo) : List DocResults :=
  (files.filter (fun f => isHit cache f)).map (cachedResults cache)
    ++ (files.filter (fun f => !(isHit cache f))).filterMap (extract_from_file classify)

theorem classifyAgg_foldl (cache : Cache) (files : List FileInfo) (a : Aggregate) :
    files.foldl (fun a f => if isHit cache f then aggAdd a (cachedResults cache f) else a) a
      = ((files.filter (fun f => isHit cache f)).map (cachedResults cache)).foldl aggAdd a := by
  induction files generalizing a with
  | nil => rfl
  | cons f t ih =>
      simp only [List.foldl_cons, List.filter_cons]
      by_cases h : isHit cache f = true
      · rw [if_pos h, if_pos h, List.map_cons, List.foldl_cons]
        exact ih _
      · rw [if_neg h, if_neg h]
        exact ih a

theorem classifyAgg_eq (cache : Cache) (files : List FileInfo) :
    classifyAgg cache files
      = aggregateList ((files.filter (fun f => isHit cache f)).map (cachedResults cache)) :=
  classifyAgg_foldl cache files emptyAgg

theorem scanCore_agg (classify : Classify) (ts : String) (files : List FileInfo) (cache : Cache) :
    (scanCore classify ts files cache false).agg
      = aggregateList (servedList classify cache files) := by
  unfold scanCore
  by_cases hfe : files.isEmpty
  · have hf : files = [] := List.isEmpty_iff.mp hfe
    subst hf
    rfl
  · rw [if_neg (by simp [hfe])]
    dsimp only
    by_cases hte : (files_to_process cache files false).isEmpty
    · rw [if_pos (by simp [hte])]
      dsimp only
      have hnil : files.filter (fun f => !(isHit cache f)) = [] := by
        have : files_to_process cache files false = [] := List.isEmpty_iff.mp hte
        simpa [files_to_process] using this
      rw [classifyAgg_eq]
      unfold servedList
      rw [hnil]
      simp
    · rw [if_neg (by simp [hte])]
      dsimp only
      rw [processFiles_snd, classifyAgg_eq]
      unfold servedList aggregateList
      rw [List.foldl_append]
      rfl

theorem scanCore_newFiles_zero (classify : Classify) (ts : String) (files : List FileInfo)
    (cache : Cache) (h : files_to_process cache files false = []) :
    (scanCore classify ts files cache false).newFiles = 0 := by
  unfold scanCore
  by_cases hfe : files.isEmpty
  · rw [if_pos (by simp [hfe])]
  · rw [if_neg (by simp [hfe])]
    dsimp only
    rw [if_pos (by simp [h])]

theorem scanCore_cachedFiles_all (classify : Classify) (ts : String) (files : List FileInfo)
    (cache : Cache) (h : ∀ f ∈ files, isHit cache f = true) :
    (scanCore classify ts files cache false).cachedFiles = files.length := by
  unfold scanCore
  by_cases hfe : files.isEmpty
  · rw [if_pos (by simp [hfe])]
    have hf : files = [] := List.isEmpty_iff.mp hfe
    simp [hf]
  · rw [if_neg (by simp [hfe])]
    dsimp only
    have hfil : files.filter (fun f => isHit cache f) = files := List.filter_eq_self.mpr h
    by_cases hte : (files_to_process cache files false).isEmpty
    · rw [if_pos (by simp [hte])]
      simp [hfil]
    · rw [if_neg (by simp [hte])]
      simp [hfil]

theorem servedList_perm (classify : Classify) (cache : Cache) (files : List FileInfo) :
    List.Perm (servedList classify cache files)
      (files.filterMap (servedOpt classify cache)) := by
  unfold servedList
  have h1 : (files.filter (fun f => isHit cache f)).filterMap (servedOpt classify cache)
      = (files.filter (fun f => isHit cache f)).map (cachedResults cache) := by
    rw [List.filterMap_congr (g := some ∘ cachedResults cache), List.filterMap_eq_map]
    intro f hf
    have hh : isHit cache f = true := (List.mem_filter.mp hf).2
    simp [servedOpt, hh, Function.comp]
  have h2 : (files.filter (fun f => !(isHit cache f))).filterMap (servedOpt classify cache)
      = (files.filter (fun f => !(isHit cache f))).filterMap (extract_from_file classify) := by
    apply List.filterMap_congr
    intro f hf
    have hh : isHit cache f = false := by
      have hm := (List.mem_filter.mp hf).2
      simpa using hm
    simp [servedOpt, hh]
  rw [← h1, ← h2, ← List.filterMap_append]
  exact (List.filter_append_perm _ files).filterMap _

/-- Aggregate of one non-forced run, as a fold over the per-document served
results in discovery order. -/
theorem scanCore_agg_filterMap (classify : Classify) (ts : String) (files : List FileInfo)
    (cache : Cache) :
    (scanCore classify ts files cache false).agg
      = aggregateList (files.filterMap (servedOpt classify cache)) := by
  rw [scanCore_agg]
  exact aggregateList_perm (servedList_perm classify cache files)

theorem files_to_process_false (cache : Cache) (files : List FileInfo) :
    files_to_process cache files false = files.filter (fun f => !(isHit cache f)) := rfl

theorem scan_strings (classify : Classify) (ts : String) (files : List FileInfo)
    (disk : DiskCache) (force : Bool) :
    (scan_directory_incremental classify ts files disk force).strings
      = (scanCore classify ts files (load_cache disk) force).agg.strings := rfl

theorem scan_counts (classify : Classify) (ts : String) (files : List FileInfo)
    (disk : DiskCache) (force : Bool) :
    (scan_directory_incremental classify ts files disk force).counts
      = (scanCore classify ts files (load_cache disk) force).agg.counts := rfl

theorem scan_cachedFiles (classify : Classify) (ts : String) (files : List FileInfo)
    (disk : DiskCache) (force : Bool) :
    (scan_directory_incremental classify ts files disk force).cachedFiles
      = (scanCore classify ts files (load_cache disk) force).cachedFiles := rfl

theorem scan_newFiles (classify : Classify) (ts : String) (files : List FileInfo)
    (disk : DiskCache) (force : Bool) :
    (scan_directory_incremental classify ts files disk force).newFiles
      = (scanCore classify ts files (load_cache disk) force).newFiles := rfl

/-- The cache visible to the next run: whatever this run saved, or the
untouched previous disk state when nothing was processed.  In both cases it
is `processCache` over the processed files (an empty fold when none). -/
theorem load_scan_diskAfter (classify : Classify) (ts : String) (files : List FileInfo)
    (disk : DiskCache) (force : Bool) :
    load_cache (scan_directory_incremental classify ts files disk force).diskAfter
      = processCache classify ts (files_to_process (load_cache disk) files force)
          (load_cache disk) := by
  simp only [scan_directory_incremental, scanCore]
  by_cases hfe : files.isEmpty
  · rw [if_pos (by simp [hfe])]
    have hf : files = [] := List.isEmpty_iff.mp hfe
    subst hf
    cases force <;> rfl
  · rw [if_neg (by simp [hfe])]
    by_cases hte : (files_to_process (load_cache disk) files force).isEmpty
    · rw [if_pos (by simp [hte])]
      rw [List.isEmpty_iff.mp hte, processCache_nil]
    · rw [if_neg (by simp [hte])]
      dsimp only
      rw [processFiles_fst]
      rfl

/-- After a non-forced run over documents with distinct identities, the
lookup of a document that was a fingerprint hit is unchanged. -/
theorem lookup_after_run_hit (classify : Classify) (ts : String) (files : List FileInfo)
    (cache : Cache) (f : FileInfo) (hnd : (files.map (fun g => g.path)).Nodup)
    (hf : f ∈ files) (hhit : isHit cache f = true) :
    cacheLookup (processCache classify ts (files_to_process cache files false) cache) f.path
      = cacheLookup cache f.path := by
  apply cacheLookup_processCache_skip
  intro g hg hgp
  exfalso
  rw [files_to_process_false] at hg
  have hgf : g ∈ files := List.mem_of_mem_filter hg
  have hgeq : g = f := List.inj_on_of_nodup_map hnd hgf hf hgp
  subst hgeq
  have := (List.mem_filter.mp hg).2
  rw [hhit] at this
  simp at this

/-- After a non-forced run over documents with distinct identities, the
lookup of an unreadable fingerprint miss is unchanged: its extraction fails,
so no entry is written. -/
theorem lookup_after_run_unreadable (classify : Classify) (ts : String) (files : List FileInfo)
    (cache : Cache) (f : FileInfo) (hnd : (files.map (fun g => g.path)).Nodup)
    (hf : f ∈ files) (hc : f.content = none) :
    cacheLookup (processCache classify ts (files_to_process cache files false) cache) f.path
      = cacheLookup cache f.path := by
  apply cacheLookup_processCache_skip
  intro g hg hgp
  rw [files_to_process_false] at hg
  have hgf : g ∈ files := List.mem_of_mem_filter hg
  have hgeq : g = f := List.inj_on_of_nodup_map hnd hgf hf hgp
  subst hgeq
  simp [extract_from_file, hc]

/-- After a non-forced run over documents with distinct identities, a
readable fingerprint miss has a fresh cache entry holding its current
fingerprint and its freshly extracted results. -/
theorem lookup_after_run_miss (classify : Classify) (ts : String) (files : List FileInfo)
    (cache : Cache) (f : FileInfo) (c : Content) (hnd : (files.map (fun g => g.path)).Nodup)
    (hf : f ∈ files) (hmiss : isHit cache f = false) (hc : f.content = some c) :
    cacheLookup (processCache classify ts (files_to_process cache files false) cache) f.path
      = some { hash := calculate_file_hash f, timestamp := ts,
               results := classify c f.ftype } := by
  apply cacheLookup_processCache_hit
  · rw [files_to_process_false]
    exact hnd.sublist ((List.filter_sublist files).map _)
  · rw [files_to_process_false]
    exact List.mem_filter.mpr ⟨hf, by simp [hmiss]⟩
  · simp [extract_from_file, hc]

/-- After a non-forced run over documents with distinct identities, every
readable document is a fingerprint hit and every unreadable document keeps
its previous classification. -/
theorem isHit_after_run (classify : Classify) (ts : String) (files : List FileInfo)
    (cache : Cache) (f : FileInfo) (hnd : (files.map (fun g => g.path)).Nodup)
    (hf : f ∈ files) :
    isHit (processCache classify ts (files_to_process cache files false) cache) f
      = (isHit cache f || f.content.isSome) := by
  cases hc : f.content with
  | none =>
      cases hhit : isHit cache f with
      | true =>
          unfold isHit
          rw [lookup_after_run_hit classify ts files cache f hnd hf hhit]
          unfold isHit at hhit
          rw [hhit]
          simp
      | false =>
          unfold isHit
          rw [lookup_after_run_unreadable classify ts files cache f hnd hf hc]
          unfold isHit at hhit
          rw [hhit]
          simp [hc]
  | some c =>
      cases hhit : isHit cache f with
      | true =>
          unfold isHit
          rw [lookup_after_run_hit classify ts files cache f hnd hf hhit]
          unfold isHit at hhit
          rw [hhit]
          simp
      | false =>
          unfold isHit
          rw [lookup_after_run_miss classify ts files cache f c hnd hf hhit hc]
          simp [calculate_file_hash, hc]

/-- After a non-forced run over documents with distinct identities, the
result each document would be served is unchanged: re-running serves the
same per-document results. -/
theorem servedOpt_after_run (classify : Classify) (ts : String) (files : List FileInfo)
    (cache : Cache) (f : FileInfo) (hnd : (files.map (fun g => g.path)).Nodup)
    (hf : f ∈ files) :
    servedOpt classify (processCache classify ts (files_to_process cache files false) cache) f
      = servedOpt classify cache f := by
  cases hc : f.content with
  | none =>
      cases hhit : isHit cache f with
      | true =>
          unfold servedOpt
          rw [isHit_after_run classify ts files cache f hnd hf, hhit]
          simp only [Bool.true_or, if_true]
          unfold cachedResults
          rw [lookup_after_run_hit classify ts files cache f hnd hf hhit]
      | false =>
          unfold servedOpt
          rw [isHit_after_run classify ts files cache f hnd hf, hhit, hc]
          simp
  | some c =>
      cases hhit : isHit cache f with
      | true =>
          unfold servedOpt
          rw [isHit_after_run classify ts files cache f hnd hf, hhit]
          simp only [Bool.true_or, if_true]
          unfold cachedResults
          rw [lookup_after_run_hit classify ts files cache f hnd hf hhit]
      | false =>
          unfold servedOpt
          rw [isHit_after_run classify ts files cache f hnd hf, hhit, hc]
          simp only [Option.isSome_some, Bool.false_or, if_true]
          unfold cachedResults
          rw [lookup_after_run_miss classify ts files cache f c hnd hf hhit hc]
          simp [extract_from_file, hc]

/-! ## Helper lemmas: per-category occurrence counting -/

/-- Raw occurrences a single per-document result contributes to category
`c`: the sizes of its (per-document deduplicated) fragment sets for `c`,
exactly what `file_counts[category] += len(strings)` adds. -/
def catCount (r : DocResults) (c : String) : Nat :=
  r.foldl (fun n p => if p.1 = c then n + p.2.card else n) 0

theorem catCount_shift (r : DocResults) (c : String) (n : Nat) :
    r.foldl (fun n p => if p.1 = c then n + p.2.card else n) n = n + catCount r c := by
  unfold catCount
  induction r generalizing n with
  | nil => simp
  | cons p t ih =>
      simp only [List.foldl_cons]
      by_cases h : p.1 = c
      · rw [if_pos h, if_pos h, ih (n + p.2.card), ih (0 + p.2.card)]
        omega
      · rw [if_neg h, if_neg h]
        exact ih n

theorem aggAdd_counts (a : Aggregate) (r : DocResults) (c : String) :
    (aggAdd a r).counts c = a.counts c + catCount r c := by
  unfold aggAdd
  induction r generalizing a with
  | nil => simp [catCount]
  | cons p t ih =>
      simp only [List.foldl_cons]
      rw [ih]
      unfold catCount
      simp only [List.foldl_cons]
      rw [catCount_shift, catCount_shift]
      unfold aggStep
      dsimp only
      by_cases h : c = p.1
      · rw [if_pos h, if_pos (show p.1 = c from h.symm)]
        omega
      · rw [if_neg h, if_neg (fun hh => h hh.symm)]

theorem foldl_aggAdd_counts (l : List DocResults) (a : Aggregate) (c : String) :
    (l.foldl aggAdd a).counts c = a.counts c + (l.map (fun r => catCount r c)).sum := by
  induction l generalizing a with
  | nil => simp
  | cons r t ih =>
      simp only [List.foldl_cons, List.map_cons, List.sum_cons]
      rw [ih, aggAdd_counts]
      omega

/-! ## Claims -/

/-- C2, counterexample.  The claim says `save_cache` persists atomically by
writing to a temporary location and renaming it into place, so a crash
mid-write never leaves a truncated cache visible.  In the source
(lines 69-74) `save_cache` opens the final cache path directly with mode
`w` and `json.dump`s into it: its operation trace contains no rename at
all, and a crash after 3 flushed bytes of the 9-byte serialization leaves
the truncated string `cac` — not the old version, not the new version — at
the cache path. -/
theorem c2_counterexample_no_rename :
    ((save_cache_ops (fun _ => "cachedata") [] "cachedir").all
        (fun op => !(FsOp.isRename op))) = true
    ∧ crashState (fun _ => none) (save_cache_ops (fun _ => "cachedata") [] "cachedir") 1 3
        (cacheFilePath "cachedir") = some "cac"
    ∧ ("cac" : String) ≠ "cachedata" := by
  refine ⟨by decide, ?_, by decide⟩
  decide

/-- C2, amended.  `save_cache` performs `os.makedirs` followed by a single
direct truncating write of the serialized map to the final cache path — no
temporary file and no rename.  A crash mid-write therefore leaves exactly a
prefix of the new serialization at the cache path; the pipeline recovers
because `load_cache` treats an unparsable cache file exactly like a missing
one (empty cache, full rescan). -/
theorem c2_save_direct_write_amended (ser : Cache → String) (cache : Cache)
    (cacheDir : String) (disk : Disk) (j : Nat) :
    save_cache_ops ser cache cacheDir
      = [FsOp.makedirs cacheDir, FsOp.writeFile (cacheFilePath cacheDir) (ser cache)]
    ∧ crashState disk (save_cache_ops ser cache cacheDir) 1 j (cacheFilePath cacheDir)
        = some ((ser cache).take j)
    ∧ load_cache DiskCache.corrupt = load_cache DiskCache.absent := by
  refine ⟨rfl, ?_, rfl⟩
  unfold crashState runOps save_cache_ops
  simp [applyOp]

/-- C3.  A corrupted (unparsable) persisted cache is loaded as the empty
cache without raising, so the whole observable run — fragment sets, counts,
hit and work-item statistics — coincides with a run that has no cache file
at all, and with an empty cache every discovered document is rescanned:
`new_files` equals the number of discovered documents. -/
theorem c3_corrupt_cache_full_rescan (classify : Classify) (ts : String)
    (files : List FileInfo) (force : Bool) :
    ((scan_directory_incremental classify ts files DiskCache.corrupt force).strings
        = (scan_directory_incremental classify ts files DiskCache.absent force).strings
      ∧ (scan_directory_incremental classify ts files DiskCache.corrupt force).counts
        = (scan_directory_incremental classify ts files DiskCache.absent force).counts
      ∧ (scan_directory_incremental classify ts files DiskCache.corrupt force).cachedFiles
        = (scan_directory_incremental classify ts files DiskCache.absent force).cachedFiles
      ∧ (scan_directory_incremental classify ts files DiskCache.corrupt force).newFiles
        = (scan_directory_incremental classify ts files DiskCache.absent force).newFiles)
    ∧ (scan_directory_incremental classify ts files DiskCache.corrupt false).newFiles
        = files.length := by
  refine ⟨⟨rfl, rfl, rfl, rfl⟩, ?_⟩
  rw [scan_newFiles]
  have hload : load_cache DiskCache.corrupt = [] := rfl
  have hall : files_to_process (load_cache DiskCache.corrupt) files false = files := by
    rw [files_to_process_false]
    apply List.filter_eq_self.mpr
    intro f hf
    simp [isHit, hload, cacheLookup_nil]
  unfold scanCore
  by_cases hfe : files.isEmpty
  · rw [if_pos (by simp [hfe])]
    simp [List.isEmpty_iff.mp hfe]
  · rw [if_neg (by simp [hfe])]
    dsimp only
    rw [if_neg (by rw [hall]; simp [hfe])]
    dsimp only
    rw [hall]

/-- C4.  The merge of per-document extraction results into the Aggregate
Result — set union per category plus summed counts — is order-independent:
any permutation of the same per-document results (cache hits first, any
worker completion order) folds to the same aggregate.  This is the shared
merge loop of `scan_directory_parallel` (lines 190-209) and
`scan_directory_incremental` (lines 227-233, 271-273). -/
theorem c4_merge_order_independent (l l2 : List DocResults) (h : List.Perm l l2) :
    aggregateList l = aggregateList l2 :=
  aggregateList_perm h

theorem c4_merge_order_independent_witness :
    List.Perm
      [[("actions", ({"Save"} : Finset String))], [("actions", ({"Cancel"} : Finset String))]]
      [[("actions", ({"Cancel"} : Finset String))], [("actions", ({"Save"} : Finset String))]]
    ∧ aggregateList
        [[("actions", ({"Save"} : Finset String))], [("actions", ({"Cancel"} : Finset String))]]
      = aggregateList
        [[("actions", ({"Cancel"} : Finset String))], [("actions", ({"Save"} : Finset String))]] :=
  ⟨List.Perm.swap _ _ _, c4_merge_order_independent _ _ (List.Perm.swap _ _ _)⟩

/-- C7.  Discovery excludes a path exactly when one of its whole segments
equals an excluded-directory name: `in` on `filepath.parts` is element
equality, so a segment that merely contains an excluded name as a substring
(`my_node_modules_backup`) is kept, while an exact segment at any depth
(`app/sub/node_modules/deep/page.jsx`) is excluded. -/
theorem c7_exclusion_exact_segment (parts excludeDirs : List String) :
    (pathExcluded parts excludeDirs = true ↔ ∃ seg ∈ parts, seg ∈ excludeDirs)
    ∧ pathExcluded ["app", "my_node_modules_backup", "page.jsx"]
        ["node_modules", "dist", "build"] = false
    ∧ pathExcluded ["app", "sub", "node_modules", "deep", "page.jsx"]
        ["node_modules", "dist", "build"] = true := by
  refine ⟨?_, by decide, by decide⟩
  unfold pathExcluded
  rw [List.any_eq_true]
  constructor
  · rintro ⟨d, hd, hc⟩
    exact ⟨d, List.elem_iff.mp hc, hd⟩
  · rintro ⟨s, hs, hse⟩
    exact ⟨s, hse, List.elem_iff.mpr hs⟩

/-- C8.  The per-category source count accumulated alongside the Aggregate
Result is the plain sum, over all merged per-document results, of the
per-document fragment-set sizes for that category (`+= len(strings)` at
line 273 of the incremental script and line 203 of the fast one) — a sum,
not a union, so two documents contributing the fragment `Save` under
`actions` yield a count of 2 while the deduplicated set has size 1. -/
theorem c8_counts_sum_of_occurrences (l : List DocResults) (c : String) :
    ((aggregateList l).counts c = (l.map (fun r => catCount r c)).sum)
    ∧ (aggregateList [[("actions", ({"Save"} : Finset String))],
        [("actions", ({"Save"} : Finset String))]]).counts "actions" = 2
    ∧ ((aggregateList [[("actions", ({"Save"} : Finset String))],
        [("actions", ({"Save"} : Finset String))]]).strings "actions").card = 1 := by
  refine ⟨?_, by decide, by decide⟩
  unfold aggregateList
  rw [foldl_aggAdd_counts]
  simp [emptyAgg]

/-- C10.  When every discovered file is a fingerprint hit and force-rescan
is off, `new_files = 0`, so the `if new_files > 0` guard skips `save_cache`
entirely: the persisted cache file — every byte of it, timestamps
included — is exactly the one from before the run. -/
theorem c10_no_save_when_all_hits (classify : Classify) (ts : String) (files : List FileInfo)
    (disk : DiskCache) (h : ∀ f ∈ files, isHit (load_cache disk) f = true) :
    (scan_directory_incremental classify ts files disk false).didSave = false
    ∧ (scan_directory_incremental classify ts files disk false).diskAfter = disk
    ∧ (scan_directory_incremental classify ts files disk false).newFiles = 0 := by
  have htp : files_to_process (load_cache disk) files false = [] := by
    rw [files_to_process_false]
    apply List.filter_eq_nil_iff.mpr
    intro f hf
    simp [h f hf]
  simp only [scan_directory_incremental, scanCore]
  by_cases hfe : files.isEmpty
  · rw [if_pos (by simp [hfe])]
    exact ⟨rfl, rfl, rfl⟩
  · rw [if_neg (by simp [hfe])]
    rw [if_pos (by simp [htp])]
    exact ⟨rfl, rfl, rfl⟩

set_option maxRecDepth 8192 in
theorem c10_no_save_when_all_hits_witness :
    (∀ f ∈ [FileInfo.mk "a.js" "js" (some [97])],
      isHit (load_cache (DiskCache.stored
        [("a.js", CacheEntry.mk (md5hex [97]) "t0" [("ui_literals", ∅)])])) f = true)
    ∧ (scan_directory_incremental (fun _ _ => []) "t1" [FileInfo.mk "a.js" "js" (some [97])]
        (DiskCache.stored [("a.js", CacheEntry.mk (md5hex [97]) "t0" [("ui_literals", ∅)])])
        false).didSave = false :=
  ⟨by decide,
   (c10_no_save_when_all_hits (fun _ _ => []) "t1" [FileInfo.mk "a.js" "js" (some [97])]
      (DiskCache.stored [("a.js", CacheEntry.mk (md5hex [97]) "t0" [("ui_literals", ∅)])])
      (by decide)).1⟩

/-! ## Cache well-formedness: stored fingerprints are real digests -/

/-- Every entry of the cache stores a 32-character digest, as written by the
pipeline after a successful extraction. -/
def cacheWF (c : Cache) : Prop := ∀ x ∈ c, x.2.hash.length = 32

instance (c : Cache) : Decidable (cacheWF c) := by
  unfold cacheWF
  infer_instance

theorem cacheWF_upsert (c : Cache) (p : String) (e : CacheEntry) (hc : cacheWF c)
    (he : e.hash.length = 32) : cacheWF (cacheUpsert c p e) := by
  intro x hx
  rcases mem_cacheUpsert c p e x hx with h | h
  · rw [h]
    exact he
  · exact hc x h

theorem cacheWF_processCache (classify : Classify) (ts : String) (l : List FileInfo)
    (c : Cache) (hc : cacheWF c) : cacheWF (processCache classify ts l c) := by
  induction l generalizing c with
  | nil => exact hc
  | cons f t ih =>
      cases hef : extract_from_file classify f with
      | none =>
          rw [processCache_cons_none classify ts f t c hef]
          exact ih c hc
      | some r =>
          rw [processCache_cons_some classify ts f t c r hef]
          apply ih
          apply cacheWF_upsert _ _ _ hc
          cases hcon : f.content with
          | none => simp [extract_from_file, hcon] at hef
          | some cc => simp [calculate_file_hash, hcon, md5hex_length]

/-- C9.  A file whose bytes cannot be read hashes to the empty string
(`calculate_file_hash` returns `""` on any exception).  Every cache the
pipeline writes stores only 32-character MD5 hexdigests — a property every
scan preserves — so the empty string never matches a cached fingerprint:
an unhashable file is always classified as changed, is routed to
extraction (where the read failure is then detected as `error`), and is
never served stale cached results. -/
theorem c9_unhashable_never_cache_hit (classify : Classify) (ts : String)
    (files : List FileInfo) (disk : DiskCache) (force : Bool) (cache : Cache) (f : FileInfo) :
    (cacheWF (load_cache disk) →
      cacheWF (load_cache (scan_directory_incremental classify ts files disk force).diskAfter))
    ∧ (cacheWF cache → f ∈ files → f.content = none →
        calculate_file_hash f = ""
        ∧ isHit cache f = false
        ∧ f ∈ files_to_process cache files false
        ∧ extract_from_file classify f = none) := by
  constructor
  · intro hwf
    rw [load_scan_diskAfter]
    exact cacheWF_processCache _ _ _ _ hwf
  · intro hwf hf hc
    have hhash : calculate_file_hash f = "" := by simp [calculate_file_hash, hc]
    have hmiss : isHit cache f = false := by
      unfold isHit
      cases hl : cacheLookup cache f.path with
      | none => rfl
      | some e =>
          unfold cacheLookup at hl
          cases hfind : cache.find? (fun x => x.1 == f.path) with
          | none => rw [hfind] at hl; exact Option.noConfusion hl
          | some x =>
              rw [hfind] at hl
              have hl2 : x.2 = e := Option.some.inj hl
              have hx : x ∈ cache := List.mem_of_find?_eq_some hfind
              have he : e.hash.length = 32 := by rw [← hl2]; exact hwf x hx
              rw [hhash, beq_eq_false_iff_ne]
              intro heq
              rw [heq] at he
              simp at he
    refine ⟨hhash, hmiss, ?_, by simp [extract_from_file, hc]⟩
    rw [files_to_process_false]
    exact List.mem_filter.mpr ⟨hf, by simp [hmiss]⟩

theorem c9_unhashable_never_cache_hit_witness :
    (cacheWF [("u.js", CacheEntry.mk (md5hex [97]) "t0" [])]
      ∧ FileInfo.mk "u.js" "js" none ∈ [FileInfo.mk "u.js" "js" none]
      ∧ (FileInfo.mk "u.js" "js" none).content = none)
    ∧ (isHit [("u.js", CacheEntry.mk (md5hex [97]) "t0" [])] (FileInfo.mk "u.js" "js" none) = false
      ∧ FileInfo.mk "u.js" "js" none ∈
          files_to_process [("u.js", CacheEntry.mk (md5hex [97]) "t0" [])]
            [FileInfo.mk "u.js" "js" none] false) :=
  ⟨⟨by decide, by decide, rfl⟩,
   by
    have h := (c9_unhashable_never_cache_hit (fun _ _ => []) "t1"
      [FileInfo.mk "u.js" "js" none] DiskCache.absent false
      [("u.js", CacheEntry.mk (md5hex [97]) "t0" [])] (FileInfo.mk "u.js" "js" none)).2
      (by decide) (by decide) rfl
    exact ⟨h.2.1, h.2.2.1⟩⟩

/-! ## C6: a failing document is skipped -/

theorem filterMap_erase_none (l : List FileInfo) (d : FileInfo)
    (g : FileInfo → Option DocResults) (hg : g d = none) :
    (l.erase d).filterMap g = l.filterMap g := by
  induction l with
  | nil => rfl
  | cons x t ih =>
      by_cases hx : x = d
      · subst hx
        rw [List.erase_cons_head]
        simp [List.filterMap_cons, hg]
      · rw [List.erase_cons_tail (by simpa using hx)]
        simp only [List.filterMap_cons]
        cases g x with
        | none => exact ih
        | some r => rw [ih]

/-- C6, counterexample.  The claim says a read failure "is counted and
reported in the run statistics".  It is not: the incremental extraction
loop silently skips a document whose read raises (`if "error" not in
results` with no else branch, lines 261-273), and every statistic the run
computes or prints — total files, cached files, new/changed files, and the
save — is identical between a run in which one of two documents is
unreadable and a run in which both succeed.  No counter records the
failure. -/
theorem c6_counterexample_failure_not_reported :
    extract_from_file (fun _ _ => [("jsx_content", (∅ : Finset String))])
      (FileInfo.mk "b.jsx" "jsx" none) = none
    ∧ (scan_directory_incremental (fun _ _ => [("jsx_content", (∅ : Finset String))]) "t1"
        [FileInfo.mk "a.jsx" "jsx" (some [65]), FileInfo.mk "b.jsx" "jsx" none]
        DiskCache.absent false).cachedFiles
      = (scan_directory_incremental (fun _ _ => [("jsx_content", (∅ : Finset String))]) "t1"
          [FileInfo.mk "a.jsx" "jsx" (some [65]), FileInfo.mk "b.jsx" "jsx" (some [66])]
          DiskCache.absent false).cachedFiles
    ∧ (scan_directory_incremental (fun _ _ => [("jsx_content", (∅ : Finset String))]) "t1"
        [FileInfo.mk "a.jsx" "jsx" (some [65]), FileInfo.mk "b.jsx" "jsx" none]
        DiskCache.absent false).newFiles
      = (scan_directory_incremental (fun _ _ => [("jsx_content", (∅ : Finset String))]) "t1"
          [FileInfo.mk "a.jsx" "jsx" (some [65]), FileInfo.mk "b.jsx" "jsx" (some [66])]
          DiskCache.absent false).newFiles
    ∧ (scan_directory_incremental (fun _ _ => [("jsx_content", (∅ : Finset String))]) "t1"
        [FileInfo.mk "a.jsx" "jsx" (some [65]), FileInfo.mk "b.jsx" "jsx" none]
        DiskCache.absent false).didSave
      = (scan_directory_incremental (fun _ _ => [("jsx_content", (∅ : Finset String))]) "t1"
          [FileInfo.mk "a.jsx" "jsx" (some [65]), FileInfo.mk "b.jsx" "jsx" (some [66])]
          DiskCache.absent false).didSave := by
  refine ⟨rfl, by decide, by decide, by decide⟩

/-- C6, amended.  With one unreadable document among N (distinct
identities, fresh cache), the remaining N-1 documents are aggregated
exactly as if the unreadable one had not been discovered, and no cache
entry is created for it; but the failure is silently skipped — it is not
counted in any statistic the run reports. -/
theorem c6_unreadable_skipped_amended (classify : Classify) (ts : String)
    (files : List FileInfo) (d : FileInfo)
    (hnd : (files.map (fun g => g.path)).Nodup) (hd : d ∈ files) (hc : d.content = none) :
    (scan_directory_incremental classify ts files DiskCache.absent false).strings
      = (scan_directory_incremental classify ts (files.erase d) DiskCache.absent false).strings
    ∧ (scan_directory_incremental classify ts files DiskCache.absent false).counts
      = (scan_directory_incremental classify ts (files.erase d) DiskCache.absent false).counts
    ∧ cacheLookup (load_cache
        (scan_directory_incremental classify ts files DiskCache.absent false).diskAfter) d.path
      = none := by
  have hext : extract_from_file classify d = none := by simp [extract_from_file, hc]
  have key : ∀ (l : List FileInfo),
      (scanCore classify ts l (load_cache DiskCache.absent) false).agg
        = aggregateList (l.filterMap (extract_from_file classify)) := by
    intro l
    rw [scanCore_agg_filterMap]
    congr 1
  have herase : (files.erase d).filterMap (extract_from_file classify)
      = files.filterMap (extract_from_file classify) :=
    filterMap_erase_none files d _ hext
  refine ⟨?_, ?_, ?_⟩
  · rw [scan_strings, scan_strings, key files, key (files.erase d), herase]
  · rw [scan_counts, scan_counts, key files, key (files.erase d), herase]
  · rw [load_scan_diskAfter]
    rw [cacheLookup_processCache_skip]
    · rfl
    · intro g hg hgp
      rw [files_to_process_false] at hg
      have hgf : g ∈ files := List.mem_of_mem_filter hg
      have hgd : g = d := List.inj_on_of_nodup_map hnd hgf hd hgp
      subst hgd
      exact hext

theorem c6_unreadable_skipped_amended_witness :
    (([FileInfo.mk "a.jsx" "jsx" (some [65]), FileInfo.mk "b.jsx" "jsx" none].map
        (fun g => g.path)).Nodup
      ∧ FileInfo.mk "b.jsx" "jsx" none
          ∈ [FileInfo.mk "a.jsx" "jsx" (some [65]), FileInfo.mk "b.jsx" "jsx" none])
    ∧ cacheLookup (load_cache
        (scan_directory_incremental (fun _ _ => [("jsx_content", (∅ : Finset String))]) "t1"
          [FileInfo.mk "a.jsx" "jsx" (some [65]), FileInfo.mk "b.jsx" "jsx" none]
          DiskCache.absent false).diskAfter) "b.jsx"
      = none :=
  ⟨⟨by decide, by decide⟩,
   (c6_unreadable_skipped_amended (fun _ _ => [("jsx_content", (∅ : Finset String))]) "t1"
      [FileInfo.mk "a.jsx" "jsx" (some [65]), FileInfo.mk "b.jsx" "jsx" none]
      (FileInfo.mk "b.jsx" "jsx" none) (by decide) (by decide) rfl).2.2⟩

/-! ## C5: change detection is only as strong as MD5 -/

/-- First message of the classic published MD5 collision pair (two 128-byte
messages with equal MD5). -/
def collisionA : Content :=
  [0xd1, 0x31, 0xdd, 0x02, 0xc5, 0xe6, 0xee, 0xc4, 0x69, 0x3d, 0x9a, 0x06, 0x98, 0xaf, 0xf9, 0x5c,
   0x2f, 0xca, 0xb5, 0x87, 0x12, 0x46, 0x7e, 0xab, 0x40, 0x04, 0x58, 0x3e, 0xb8, 0xfb, 0x7f, 0x89,
   0x55, 0xad, 0x34, 0x06, 0x09, 0xf4, 0xb3, 0x02, 0x83, 0xe4, 0x88, 0x83, 0x25, 0x71, 0x41, 0x5a,
   0x08, 0x51, 0x25, 0xe8, 0xf7, 0xcd, 0xc9, 0x9f, 0xd9, 0x1d, 0xbd, 0xf2, 0x80, 0x37, 0x3c, 0x5b,
   0xd8, 0x82, 0x3e, 0x31, 0x56, 0x34, 0x8f, 0x5b, 0xae, 0x6d, 0xac, 0xd4, 0x36, 0xc9, 0x19, 0xc6,
   0xdd, 0x53, 0xe2, 0xb4, 0x87, 0xda, 0x03, 0xfd, 0x02, 0x39, 0x63, 0x06, 0xd2, 0x48, 0xcd, 0xa0,
   0xe9, 0x9f, 0x33, 0x42, 0x0f, 0x57, 0x7e, 0xe8, 0xce, 0x54, 0xb6, 0x70, 0x80, 0xa8, 0x0d, 0x1e,
   0xc6, 0x98, 0x21, 0xbc, 0xb6, 0xa8, 0x83, 0x93, 0x96, 0xf9, 0x65, 0x2b, 0x6f, 0xf7, 0x2a, 0x70]

/-- Second message of the collision pair: differs from `collisionA` in six
bytes (offsets 19, 45, 59, 83, 109, 123) yet has the same MD5 digest. -/
def collisionB : Content :=
  [0xd1, 0x31, 0xdd, 0x02, 0xc5, 0xe6, 0xee, 0xc4, 0x69, 0x3d, 0x9a, 0x06, 0x98, 0xaf, 0xf9, 0x5c,
   0x2f, 0xca, 0xb5, 0x07, 0x12, 0x46, 0x7e, 0xab, 0x40, 0x04, 0x58, 0x3e, 0xb8, 0xfb, 0x7f, 0x89,
   0x55, 0xad, 0x34, 0x06, 0x09, 0xf4, 0xb3, 0x02, 0x83, 0xe4, 0x88, 0x83, 0x25, 0xf1, 0x41, 0x5a,
   0x08, 0x51, 0x25, 0xe8, 0xf7, 0xcd, 0xc9, 0x9f, 0xd9, 0x1d, 0xbd, 0x72, 0x80, 0x37, 0x3c, 0x5b,
   0xd8, 0x82, 0x3e, 0x31, 0x56, 0x34, 0x8f, 0x5b, 0xae, 0x6d, 0xac, 0xd4, 0x36, 0xc9, 0x19, 0xc6,
   0xdd, 0x53, 0xe2, 0x34, 0x87, 0xda, 0x03, 0xfd, 0x02, 0x39, 0x63, 0x06, 0xd2, 0x48, 0xcd, 0xa0,
   0xe9, 0x9f, 0x33, 0x42, 0x0f, 0x57, 0x7e, 0xe8, 0xce, 0x54, 0xb6, 0x70, 0x80, 0x28, 0x0d, 0x1e,
   0xc6, 0x98, 0x21, 0xbc, 0xb6, 0xa8, 0x83, 0x93, 0x96, 0xf9, 0x65, 0xab, 0x6f, 0xf7, 0x2a, 0x70]

set_option maxRecDepth 16384 in
/-- C5, counterexample.  The claim says that for every document whose byte
content differs between run 1 and run 2, the run-2 fingerprint differs from
the cached one and the document is re-extracted.  `calculate_file_hash` is
MD5, and MD5 has collisions: after run 1 caches a file containing
`collisionA`, run 2 on the same file containing `collisionB` — different
bytes — recomputes the same fingerprint, counts the file as a cache hit
(`cached_files = 1`), schedules nothing (`new_files = 0`), and serves the
stale cached results instead of re-extracting. -/
theorem c5_counterexample_md5_collision :
    collisionA ≠ collisionB
    ∧ md5hex collisionA = md5hex collisionB
    ∧ (scan_directory_incremental (fun _ _ => []) "t2"
        [FileInfo.mk "a.js" "js" (some collisionB)]
        (scan_directory_incremental (fun _ _ => []) "t1"
          [FileInfo.mk "a.js" "js" (some collisionA)] DiskCache.absent false).diskAfter
        false).newFiles = 0
    ∧ (scan_directory_incremental (fun _ _ => []) "t2"
        [FileInfo.mk "a.js" "js" (some collisionB)]
        (scan_directory_incremental (fun _ _ => []) "t1"
          [FileInfo.mk "a.js" "js" (some collisionA)] DiskCache.absent false).diskAfter
        false).cachedFiles = 1 := by
  refine ⟨by decide, by decide, by decide, by decide⟩

/-- C5, amended.  For every readable document whose recomputed MD5
fingerprint differs from its cached fingerprint (or which has no cache
entry) — which is every content change except an MD5 collision, a
documented accepted risk — the document is put on `files_to_process`, and
after the run its cache entry is exactly the fresh one: the new
fingerprint, this run's timestamp, and results extracted from the new
content only, the prior entry being replaced wholesale. -/
theorem c5_changed_fingerprint_reextracted_amended (classify : Classify) (ts : String)
    (files : List FileInfo) (disk : DiskCache) (f : FileInfo) (c : Content)
    (hnd : (files.map (fun g => g.path)).Nodup) (hf : f ∈ files)
    (hc : f.content = some c) (hmiss : isHit (load_cache disk) f = false) :
    f ∈ files_to_process (load_cache disk) files false
    ∧ cacheLookup (load_cache
        (scan_directory_incremental classify ts files disk false).diskAfter) f.path
      = some { hash := md5hex c, timestamp := ts, results := classify c f.ftype } := by
  constructor
  · rw [files_to_process_false]
    exact List.mem_filter.mpr ⟨hf, by simp [hmiss]⟩
  · rw [load_scan_diskAfter]
    rw [lookup_after_run_miss classify ts files (load_cache disk) f c hnd hf hmiss hc]
    simp [calculate_file_hash, hc]

set_option maxRecDepth 8192 in
theorem c5_changed_fingerprint_reextracted_amended_witness :
    (([FileInfo.mk "a.js" "js" (some [98])].map (fun g => g.path)).Nodup
      ∧ isHit (load_cache (DiskCache.stored [("a.js", CacheEntry.mk (md5hex [97]) "t0" [])]))
          (FileInfo.mk "a.js" "js" (some [98])) = false)
    ∧ FileInfo.mk "a.js" "js" (some [98])
        ∈ files_to_process
            (load_cache (DiskCache.stored [("a.js", CacheEntry.mk (md5hex [97]) "t0" [])]))
            [FileInfo.mk "a.js" "js" (some [98])] false :=
  ⟨⟨by decide, by decide⟩,
   (c5_changed_fingerprint_reextracted_amended (fun _ _ => []) "t1"
      [FileInfo.mk "a.js" "js" (some [98])]
      (DiskCache.stored [("a.js", CacheEntry.mk (md5hex [97]) "t0" [])])
      (FileInfo.mk "a.js" "js" (some [98])) [98]
      (by decide) (by decide) rfl (by decide)).1⟩

/-! ## C1: the second run of an unchanged tree -/

/-- C1, counterexample.  The claim says that for every document set,
running the pipeline twice with no intervening changes performs zero
extraction work items in the second run, every discovered file being served
from the cache.  A document that cannot be read breaks this: its extraction
fails in run 1, so no cache entry is ever written for it, and run 2 — with
nothing changed — still classifies it as new/changed and schedules it:
`new_files = 1`, not `0`.  (The Aggregate Result is still identical; only
the zero-work-items half of the claim fails.) -/
theorem c1_counterexample_unreadable :
    (scan_directory_incremental (fun _ _ => []) "t2" [FileInfo.mk "u.js" "js" none]
      (scan_directory_incremental (fun _ _ => []) "t1" [FileInfo.mk "u.js" "js" none]
        DiskCache.absent false).diskAfter false).newFiles = 1 := by
  decide

/-- C1, amended.  For every document set with distinct identities and no
intervening changes, the second run's Aggregate Result — fragment sets and
per-category counts — is identical to the first run's, whatever the initial
cache; and provided every discovered file is readable, the second run
performs zero extraction work items, every discovered file being served
from the cache because its recomputed fingerprint equals the cached one.
(The readability proviso is forced by the counterexample: a file whose read
fails is never cached and is re-attempted on every run.) -/
theorem c1_second_run_identical_amended (classify : Classify) (ts1 ts2 : String)
    (files : List FileInfo) (disk : DiskCache)
    (hnd : (files.map (fun g => g.path)).Nodup) :
    (scan_directory_incremental classify ts2 files
        (scan_directory_incremental classify ts1 files disk false).diskAfter false).strings
      = (scan_directory_incremental classify ts1 files disk false).strings
    ∧ (scan_directory_incremental classify ts2 files
        (scan_directory_incremental classify ts1 files disk false).diskAfter false).counts
      = (scan_directory_incremental classify ts1 files disk false).counts
    ∧ ((∀ f ∈ files, f.content.isSome = true) →
        (scan_directory_incremental classify ts2 files
            (scan_directory_incremental classify ts1 files disk false).diskAfter false).newFiles
          = 0
        ∧ (scan_directory_incremental classify ts2 files
            (scan_directory_incremental classify ts1 files disk false).diskAfter
            false).cachedFiles
          = files.length) := by
  have hdisk : load_cache (scan_directory_incremental classify ts1 files disk false).diskAfter
      = processCache classify ts1 (files_to_process (load_cache disk) files false)
          (load_cache disk) := load_scan_diskAfter classify ts1 files disk false
  have hserved : files.filterMap (servedOpt classify
        (processCache classify ts1 (files_to_process (load_cache disk) files false)
          (load_cache disk)))
      = files.filterMap (servedOpt classify (load_cache disk)) :=
    List.filterMap_congr
      (fun f hf => servedOpt_after_run classify ts1 files (load_cache disk) f hnd hf)
  have haggeq : (scanCore classify ts2 files
        (load_cache (scan_directory_incremental classify ts1 files disk false).diskAfter)
        false).agg
      = (scanCore classify ts1 files (load_cache disk) false).agg := by
    rw [hdisk, scanCore_agg_filterMap, scanCore_agg_filterMap, hserved]
  refine ⟨?_, ?_, ?_⟩
  · rw [scan_strings, scan_strings, haggeq]
  · rw [scan_counts, scan_counts, haggeq]
  · intro hread
    have hhits : ∀ f ∈ files, isHit (processCache classify ts1
        (files_to_process (load_cache disk) files false) (load_cache disk)) f = true := by
      intro f hf
      rw [isHit_after_run classify ts1 files (load_cache disk) f hnd hf]
      simp [hread f hf]
    have htp2 : files_to_process (processCache classify ts1
        (files_to_process (load_cache disk) files false) (load_cache disk)) files false
        = [] := by
      rw [files_to_process_false]
      apply List.filter_eq_nil_iff.mpr
      intro f hf
      simp [hhits f hf]
    constructor
    · rw [scan_newFiles, hdisk]
      exact scanCore_newFiles_zero classify ts2 files _ htp2
    · rw [scan_cachedFiles, hdisk]
      exact scanCore_cachedFiles_all classify ts2 files _ hhits

set_option maxRecDepth 16384 in
theorem c1_second_run_identical_amended_witness :
    (([FileInfo.mk "a.js" "js" (some [97]), FileInfo.mk "b.js" "js" (some [98])].map
        (fun g => g.path)).Nodup
      ∧ (∀ f ∈ [FileInfo.mk "a.js" "js" (some [97]), FileInfo.mk "b.js" "js" (some [98])],
          f.content.isSome = true))
    ∧ (scan_directory_incremental (fun _ _ => [("ui_literals", (∅ : Finset String))]) "t2"
        [FileInfo.mk "a.js" "js" (some [97]), FileInfo.mk "b.js" "js" (some [98])]
        (scan_directory_incremental (fun _ _ => [("ui_literals", (∅ : Finset String))]) "t1"
          [FileInfo.mk "a.js" "js" (some [97]), FileInfo.mk "b.js" "js" (some [98])]
          DiskCache.absent false).diskAfter false).newFiles = 0 :=
  ⟨⟨by decide, by decide⟩,
   ((c1_second_run_identical_amended (fun _ _ => [("ui_literals", (∅ : Finset String))])
      "t1" "t2" [FileInfo.mk "a.js" "js" (some [97]), FileInfo.mk "b.js" "js" (some [98])]
      DiskCache.absent (by decide)).2.2 (by decide)).1⟩

end I18n
